import Mathlib

/-!
Verification of the cascache CAS engine: wire codec, key derivation,
generation store, and the cache orchestrator protocols, shallowly embedded
from the Go sources (internal/wire, internal/util, genstore/local.go,
cache.go, hooks.go).

Bytes are modelled as `List Nat` with each element in `[0, 256)`; Go's
`uint32(...)` / `uint16(...)` conversions are modelled with explicit
`% 2^32` / `% 2^16` truncation inside the byte constructors.
-/

set_option maxHeartbeats 1000000

namespace Cascache

/-- A byte string: list of naturals, each intended to be `< 256`. -/
abbrev Bytes := List Nat

/-- All elements are genuine bytes. -/
def WFBytes (b : Bytes) : Prop := ∀ x ∈ b, x < 256

instance : DecidablePred WFBytes := fun b => by
  unfold WFBytes; infer_instance

instance {A B : Type} [DecidableEq A] [DecidableEq B] :
    DecidableEq (Except A B) := fun a b =>
  match a, b with
  | .error x, .error y =>
    if h : x = y then .isTrue (by rw [h])
    else .isFalse (fun hc => h (by injection hc))
  | .ok x, .ok y =>
    if h : x = y then .isTrue (by rw [h])
    else .isFalse (fun hc => h (by injection hc))
  | .error _, .ok _ => .isFalse (fun hc => Except.noConfusion hc)
  | .ok _, .error _ => .isFalse (fun hc => Except.noConfusion hc)

/-! ## Big-endian integer serialization (encoding/binary, big-endian) -/

/-- `binary.BigEndian.PutUint16`: two big-endian bytes of `n % 2^16`. -/
def u16be (n : Nat) : Bytes := [n / 2^8 % 256, n % 256]

/-- `binary.BigEndian.PutUint32`: four big-endian bytes of `n % 2^32`. -/
def u32be (n : Nat) : Bytes :=
  [n / 2^24 % 256, n / 2^16 % 256, n / 2^8 % 256, n % 256]

/-- `binary.BigEndian.PutUint64`: eight big-endian bytes of `n % 2^64`. -/
def u64be (n : Nat) : Bytes :=
  [n / 2^56 % 256, n / 2^48 % 256, n / 2^40 % 256, n / 2^32 % 256,
   n / 2^24 % 256, n / 2^16 % 256, n / 2^8 % 256, n % 256]

/-- `binary.BigEndian.Uint16` of two bytes. -/
def readU16 (a b : Nat) : Nat := a * 2^8 + b

/-- `binary.BigEndian.Uint32` of four bytes. -/
def readU32 (a b c d : Nat) : Nat := ((a * 256 + b) * 256 + c) * 256 + d

/-- `binary.BigEndian.Uint64` of eight bytes. -/
def readU64 (a b c d e f g h : Nat) : Nat :=
  ((((((a * 256 + b) * 256 + c) * 256 + d) * 256 + e) * 256 + f) * 256 + g)
    * 256 + h

/-! ## Wire codec (internal/wire/wire.go)

Single layout: magic(4 = "CASC") | ver(1 = 1) | kind(1 = 1) | gen(u64 BE)
| vlen(u32 BE) | payload(vlen).  Bulk layout: magic | ver | kind(= 2)
| n(u32 BE) then n items, each klen(u16 BE) | key | gen(u64) | vlen(u32)
| payload.  Decoders are strict: any mismatch yields the single corrupt
error and frames must consume the entire buffer. -/

/-- The wire decoders' single error kind (`ErrCorrupt`). -/
inductive WErr where
  | corrupt
deriving DecidableEq, Repr

/-- `wire.EncodeSingle gen payload`; `uint32(len(payload))` truncates the
length field mod `2^32` inside `u32be`. -/
def encodeSingle (gen : Nat) (payload : Bytes) : Bytes :=
  67 :: 65 :: 83 :: 67 :: 1 :: 1 ::
    (u64be gen ++ u32be payload.length ++ payload)

/-- `wire.DecodeSingle`: checks length/magic/version/kind, reads the
generation and declared payload length, and requires the payload to consume
exactly the rest of the buffer. -/
def decodeSingle (b : Bytes) : Except WErr (Nat × Bytes) :=
  match b with
  | m0 :: m1 :: m2 :: m3 :: ver :: kd ::
      g0 :: g1 :: g2 :: g3 :: g4 :: g5 :: g6 :: g7 ::
      v0 :: v1 :: v2 :: v3 :: rest =>
    if m0 = 67 ∧ m1 = 65 ∧ m2 = 83 ∧ m3 = 67 ∧ ver = 1 ∧ kd = 1 then
      if rest.length = readU32 v0 v1 v2 v3 then
        .ok (readU64 g0 g1 g2 g3 g4 g5 g6 g7, rest)
      else .error .corrupt
    else .error .corrupt
  | _ => .error .corrupt

/-- One member of a bulk entry (`wire.BulkItem`); the key is a Go string,
i.e. an arbitrary byte string. -/
structure BulkItem where
  key : Bytes
  gen : Nat
  payload : Bytes
deriving DecidableEq, Repr

/-- The per-item section of `wire.EncodeBulk`:
klen(u16) | key | gen(u64) | vlen(u32) | payload. -/
def encBulkItem (it : BulkItem) : Bytes :=
  u16be it.key.length ++ it.key ++ u64be it.gen ++
    u32be it.payload.length ++ it.payload

/-- `wire.EncodeBulk`: fails (returns `none`) when any key length is 0 or
greater than 65535; otherwise writes the header, `uint32(len(items))`, and
the items in the caller-supplied order. -/
def encodeBulk (items : List BulkItem) : Option Bytes :=
  if items.all (fun it => decide (it.key.length ≠ 0 ∧ it.key.length ≤ 65535))
  then
    some (67 :: 65 :: 83 :: 67 :: 1 :: 2 ::
      (u32be items.length ++ items.flatMap encBulkItem))
  else none

/-- The item loop of `wire.DecodeBulk`, by remaining item count; after the
declared count the remainder must be empty (strict framing, `off != len(b)`
check). -/
def decodeBulkItems : Nat → Bytes → Except WErr (List BulkItem)
  | 0, rest => if rest = [] then .ok [] else .error .corrupt
  | n + 1, b =>
    match b with
    | k0 :: k1 :: r1 =>
      let klen := readU16 k0 k1
      if klen = 0 ∨ r1.length < klen then .error .corrupt
      else
        match r1.drop klen with
        | g0 :: g1 :: g2 :: g3 :: g4 :: g5 :: g6 :: g7 ::
            v0 :: v1 :: v2 :: v3 :: r2 =>
          let vlen := readU32 v0 v1 v2 v3
          if r2.length < vlen then .error .corrupt
          else
            match decodeBulkItems n (r2.drop vlen) with
            | .ok items =>
              .ok (⟨r1.take klen, readU64 g0 g1 g2 g3 g4 g5 g6 g7,
                    r2.take vlen⟩ :: items)
            | .error e => .error e
        | _ => .error .corrupt
    | _ => .error .corrupt

/-- `wire.DecodeBulk`: header checks, then the item loop over the declared
count. -/
def decodeBulk (b : Bytes) : Except WErr (List BulkItem) :=
  match b with
  | m0 :: m1 :: m2 :: m3 :: ver :: kd :: n0 :: n1 :: n2 :: n3 :: rest =>
    if m0 = 67 ∧ m1 = 65 ∧ m2 = 83 ∧ m3 = 67 ∧ ver = 1 ∧ kd = 2 then
      decodeBulkItems (readU32 n0 n1 n2 n3) rest
    else .error .corrupt
  | _ => .error .corrupt

def rotr32 (n x : Nat) : Nat := ((x >>> n) ||| (x <<< (32 - n))) % 2^32

def shaCh (x y z : Nat) : Nat := (x &&& y) ^^^ ((x ^^^ 0xffffffff) &&& z)

def shaMaj (x y z : Nat) : Nat := (x &&& y) ^^^ (x &&& z) ^^^ (y &&& z)

def bigSigma0 (x : Nat) : Nat := rotr32 2 x ^^^ rotr32 13 x ^^^ rotr32 22 x

def bigSigma1 (x : Nat) : Nat := rotr32 6 x ^^^ rotr32 11 x ^^^ rotr32 25 x

def smallSigma0 (x : Nat) : Nat := rotr32 7 x ^^^ rotr32 18 x ^^^ (x >>> 3)

def smallSigma1 (x : Nat) : Nat := rotr32 17 x ^^^ rotr32 19 x ^^^ (x >>> 10)

def shaK : List Nat :=
  [1116352408, 1899447441, 3049323471, 3921009573, 961987163,
   1508970993, 2453635748, 2870763221, 3624381080, 310598401,
   607225278, 1426881987, 1925078388, 2162078206, 2614888103,
   3248222580, 3835390401, 4022224774, 264347078, 604807628,
   770255983, 1249150122, 1555081692, 1996064986, 2554220882,
   2821834349, 2952996808, 3210313671, 3336571891, 3584528711,
   113926993, 338241895, 666307205, 773529912, 1294757372,
   1396182291, 1695183700, 1986661051, 2177026350, 2456956037,
   2730485921, 2820302411, 3259730800, 3345764771, 3516065817,
   3600352804, 4094571909, 275423344, 430227734, 506948616,
   659060556, 883997877, 958139571, 1322822218, 1537002063,
   1747873779, 1955562222, 2024104815, 2227730452, 2361852424,
   2428436474, 2756734187, 3204031479, 3329325298]

def shaH0 : List Nat :=
  [1779033703, 3144134277, 1013904242, 2773480762,
   1359893119, 2600822924, 528734635, 1541459225]

/-- SHA-256 message padding: append 0x80, zeros to 56 mod 64, then the
bit length as a 64-bit big-endian integer. -/
def shaPad (msg : Bytes) : Bytes :=
  msg ++ 0x80 :: List.replicate ((64 - (msg.length + 9) % 64) % 64) 0
    ++ u64be (8 * msg.length)

/-- Split a (padded) message into 64-byte chunks (fuel-based structural
recursion; the fuel is an upper bound on the chunk count). -/
def chunks64Go : Nat → Bytes → List Bytes
  | 0, _ => []
  | _, [] => []
  | fuel + 1, b => b.take 64 :: chunks64Go fuel (b.drop 64)

def chunks64 (b : Bytes) : List Bytes := chunks64Go b.length b

/-- Group bytes into big-endian 32-bit words. -/
def words16 : Bytes → List Nat
  | a :: b :: c :: d :: rest => readU32 a b c d :: words16 rest
  | _ => []

/-- One step of the SHA-256 message-schedule extension. -/
def extendStep (w : List Nat) : List Nat :=
  w ++ [(smallSigma1 (w.getD (w.length - 2) 0) + w.getD (w.length - 7) 0 +
         smallSigma0 (w.getD (w.length - 15) 0) + w.getD (w.length - 16) 0)
        % 2^32]

/-- Extend 16 words to the 64-word schedule. -/
def schedule (w : List Nat) : List Nat := extendStep^[48] w

/-- One SHA-256 compression round; the state is [a,b,c,d,e,f,g,h]. -/
def compressStep (st : List Nat) (kw : Nat × Nat) : List Nat :=
  match st with
  | [a, b, c, d, e, f, g, h] =>
    let t1 := (h + bigSigma1 e + shaCh e f g + kw.1 + kw.2) % 2^32
    let t2 := (bigSigma0 a + shaMaj a b c) % 2^32
    [(t1 + t2) % 2^32, a, b, c, (d + t1) % 2^32, e, f, g]
  | _ => st

/-- Compress one 64-byte chunk into the hash state. -/
def compressChunk (h : List Nat) (chunk : Bytes) : List Nat :=
  let w := schedule (words16 chunk)
  let st := (shaK.zip w).foldl compressStep h
  List.zipWith (fun x y => (x + y) % 2^32) h st

/-- SHA-256 over a byte string (crypto/sha256), as 32 output bytes. -/
def sha256 (msg : Bytes) : Bytes :=
  ((chunks64 (shaPad msg)).foldl compressChunk shaH0).flatMap u32be

/-- One hex digit as an ASCII byte (util.hex16's digit table). -/
def hexdigit (n : Nat) : Nat := if n < 10 then 48 + n else 87 + n

/-- `util.hex16`: first 8 hash bytes rendered as 16 lowercase hex chars. -/
def hex16 (b : Bytes) : Bytes :=
  (b.take 8).flatMap (fun v => [hexdigit (v / 16), hexdigit (v % 16)])

/-- The length-prefixed concatenation built by `util.BulkKeySorted`:
for each key, `uint32(len(k))` big-endian then the key bytes. -/
def lpEncode (ks : List Bytes) : Bytes :=
  ks.flatMap (fun k => u32be k.length ++ k)

/-- `util.BulkKeySorted prefix sortedKeys`:
prefix ++ colon ++ first 16 hex chars of SHA-256 of the length-prefixed
concatenation of the keys. -/
def bulkKeySorted (pre : Bytes) (sortedKeys : List Bytes) : Bytes :=
  pre ++ 58 :: hex16 (sha256 (lpEncode sortedKeys))

/-- `cache.bulkKeySorted`: prefixes the namespace with "bulk:". -/
def bulkStorageKey (ns : Bytes) (sortedKeys : List Bytes) : Bytes :=
  bulkKeySorted (98 :: 117 :: 108 :: 107 :: 58 :: ns) sortedKeys

/-- `cache.uniqSorted`: the unique user keys in ascending byte-lexicographic
order (Go collects map keys and applies sort.Strings; the result is the
sorted deduplicated list). -/
def uniqSorted (ks : List Bytes) : List Bytes :=
  ks.dedup.insertionSort (fun a b => a ≤ b)

/-- The bulk storage key `GetBulk` uses for a request list. -/
def bulkKeyOfRequest (ns : Bytes) (keys : List Bytes) : Bytes :=
  bulkStorageKey ns (uniqSorted keys)

/-- The concrete witness keys for the length-truncation collision: a key of
exactly `2^32` bytes whose 32-bit length prefix truncates to zero. -/
def yce : Bytes := List.replicate (2^32 - 4) 97

def k1ce : Bytes := u32be (2^32 - 4) ++ yce

/-! ## Local generation store (genstore/local.go)

`LocalGenStore` keeps a map from storage key to (Gen, UpdatedAt).  `Gen` is
a Go `uint64`, so `e.Gen++` wraps modulo `2^64`.  Time is modelled as an
integer timestamp, with the Go zero time as 0.  Snapshot and SnapshotMany
never fail; missing keys read as 0. -/

structure LocalGenEntry where
  gen : Nat
  updatedAt : Int
deriving DecidableEq, Repr

/-- The `gens` map of a `LocalGenStore`. -/
structure LocalGenStore where
  gens : String → Option LocalGenEntry

def lgsEmpty : LocalGenStore := ⟨fun _ => none⟩

/-- `LocalGenStore.Snapshot`: missing key reads as 0, no error. -/
def lgsSnapshot (s : LocalGenStore) (k : String) : Nat :=
  match s.gens k with
  | none => 0
  | some e => e.gen

/-- `LocalGenStore.SnapshotMany`: one read per requested key, missing keys
map to 0, no error. -/
def lgsSnapshotMany (s : LocalGenStore) (ks : List String) :
    List (String × Nat) :=
  ks.map (fun k => (k, lgsSnapshot s k))

/-- `LocalGenStore.Bump`: `e := gens[k]` (zero value if missing), `e.Gen++`
(uint64 wraparound), record the bump time, store back and return the new
generation. -/
def lgsBump (now : Int) (s : LocalGenStore) (k : String) :
    Nat × LocalGenStore :=
  let e := (s.gens k).getD ⟨0, 0⟩
  let g := (e.gen + 1) % 2^64
  (g, ⟨fun k2 => if k2 = k then some ⟨g, now⟩ else s.gens k2⟩)

/-- `LocalGenStore.Cleanup retention`: non-positive retention is a no-op;
otherwise delete entries whose non-zero `UpdatedAt` is before
`now - retention`. -/
def lgsCleanup (retention now : Int) (s : LocalGenStore) : LocalGenStore :=
  if retention ≤ 0 then s
  else ⟨fun k =>
    match s.gens k with
    | some e =>
      if e.updatedAt ≠ 0 ∧ e.updatedAt < now - retention then none
      else some e
    | none => none⟩


/-! ## Cache orchestrator, single-key protocol (cache.go)

The orchestrator is embedded as pure functions over the results of its
external calls: the provider fetch result, the generation snapshot result,
and the provider store result are inputs; the provider calls issued and the
hook events emitted are returned, in order, alongside the Go return value.
`E` is the opaque Go `error` type of the external collaborators. -/

/-- Errors surfaced by the orchestrator's write paths: a provider/genstore
transport error, a user-codec error, or `EncodeBulk`'s invalid-key-length
error. -/
inductive CErr (E : Type) where
  | transport (e : E)
  | codec (e : E)
  | badKeyLen
deriving DecidableEq, Repr

/-- A provider call issued by the engine. -/
inductive PCall where
  | pget (k : Bytes)
  | pset (k : Bytes) (v : Bytes) (cost : Int) (ttl : Int)
  | pdel (k : Bytes)
deriving DecidableEq, Repr

/-- A hook event (hooks.go), with the identifying arguments. -/
inductive HookEv where
  | selfHealSingle (k : Bytes) (reason : String)
  | bulkRejected (ns : Bytes) (n : Nat) (reason : String)
  | providerSetRejected (k : Bytes) (isBulk : Bool)
  | genSnapshotError (count : Nat)
  | genBumpError (k : Bytes)
  | invalidateOutage (k : Bytes)
deriving DecidableEq, Repr

/-- Cache configuration after `newCache` has applied its defaults. -/
structure Cfg (V E : Type) where
  ns : Bytes
  enabled : Bool
  bulkEnabled : Bool
  defaultTTL : Int
  bulkTTL : Int
  enc : V → Except E Bytes
  dec : Bytes → Except E V
  setCost : Bytes → Bytes → Bool → Nat → Int

/-- `cache.singleKey`: "single:" + ns + ":" + userKey. -/
def singleKey (ns : Bytes) (userKey : Bytes) : Bytes :=
  115 :: 105 :: 110 :: 103 :: 108 :: 101 :: 58 :: (ns ++ 58 :: userKey)

/-- The value `cache.snapshotGen` uses: the snapshot result, with an error
conservatively treated as generation 0 (and a `GenSnapshotError` hook). -/
def snapVal {E : Type} (snap : Except E Nat) : Nat :=
  match snap with
  | .ok g => g
  | .error _ => 0

/-- The hook events `cache.snapshotGen` emits. -/
def snapHooks {E : Type} (snap : Except E Nat) : List HookEv :=
  match snap with
  | .ok _ => []
  | .error _ => [.genSnapshotError 1]

/-- `cache.Get` over the results of its two external reads.  Returns
((value, error), provider calls, hook events). -/
def getF {V E : Type} (cfg : Cfg V E) (key : Bytes)
    (fetch : Except E (Option Bytes)) (snap : Except E Nat) :
    (Option V × Option E) × List PCall × List HookEv :=
  if !cfg.enabled then ((none, none), [], [])
  else
    let k := singleKey cfg.ns key
    match fetch with
    | .error e => ((none, some e), [.pget k], [])
    | .ok none => ((none, none), [.pget k], [])
    | .ok (some raw) =>
      match decodeSingle raw with
      | .error _ =>
        ((none, none), [.pget k, .pdel k], [.selfHealSingle k "corrupt"])
      | .ok (dgen, payload) =>
        if dgen ≠ snapVal snap then
          ((none, none), [.pget k, .pdel k],
            snapHooks snap ++ [.selfHealSingle k "gen_mismatch"])
        else
          match cfg.dec payload with
          | .error _ =>
            ((none, none), [.pget k, .pdel k],
              snapHooks snap ++ [.selfHealSingle k "value_decode"])
          | .ok v => ((some v, none), [.pget k], snapHooks snap)

/-- The TTL actually used: the caller's, or the given default when the
caller passed exactly 0. -/
def effTTL (ttl dflt : Int) : Int := if ttl = 0 then dflt else ttl

/-- `cache.SetWithGen` over the results of its external calls.  Returns
(error, provider calls, hook events). -/
def setWithGenF {V E : Type} (cfg : Cfg V E) (key : Bytes) (v : V)
    (obs : Nat) (ttl : Int) (snap : Except E Nat) (setRes : Except E Bool) :
    Option (CErr E) × List PCall × List HookEv :=
  if !cfg.enabled then (none, [], [])
  else
    let ttl2 := effTTL ttl cfg.defaultTTL
    let k := singleKey cfg.ns key
    if snapVal snap ≠ obs then (none, [], snapHooks snap)
    else
      match cfg.enc v with
      | .error e => (some (.codec e), [], snapHooks snap)
      | .ok payload =>
        let wireb := encodeSingle obs payload
        let calls := [PCall.pset k wireb (cfg.setCost k wireb false 1) ttl2]
        match setRes with
        | .error e => (some (.transport e), calls, snapHooks snap)
        | .ok stored =>
          (none, calls,
            snapHooks snap ++
              if stored then [] else [.providerSetRejected k false])

/-- `InvalidateError` (hooks.go): the aggregate returned on a coupled
invalidate failure; both causes are carried as fields (`Unwrap` exposes
exactly these). -/
structure InvalidateError (E : Type) where
  key : Bytes
  bumpErr : E
  delErr : E
deriving DecidableEq, Repr

/-- `cache.Invalidate` over the results of the generation bump and the
provider delete. -/
def invalidateF {V E : Type} (cfg : Cfg V E) (key : Bytes)
    (bumpRes : Except E Nat) (delRes : Option E) :
    Option (InvalidateError E) × List PCall × List HookEv :=
  if !cfg.enabled then (none, [], [])
  else
    let k := singleKey cfg.ns key
    let bumpHks : List HookEv :=
      match bumpRes with
      | .ok _ => []
      | .error _ => [.genBumpError k]
    match bumpRes, delRes with
    | .error be, some de =>
      (some ⟨key, be, de⟩, [.pdel k], bumpHks ++ [.invalidateOutage key])
    | _, _ => (none, [.pdel k], bumpHks)


/-! ## Cache orchestrator, bulk protocol (cache.go)

The bulk operations are embedded against an explicit state: a total
generation map (a gen store whose snapshots succeed) and the provider's
current contents.  Provider writes issued inside the operation are
reported in the call trace; inner single writes see a provider that
accepts them (`stored = true`). -/

/-- The external state a bulk operation reads: per-storage-key generations
and the provider's byte store. -/
structure CState where
  gens : Bytes → Nat
  store : Bytes → Option Bytes

/-- The last-wins generation lookup `bulkValid` builds from the decoded
items (`itemGen`). -/
def itemGenF (items : List BulkItem) : Bytes → Option Nat :=
  items.foldl (fun acc it => fun k => if k = it.key then some it.gen else acc k)
    (fun _ => none)

/-- `cache.bulkValid`: every requested key must appear in the bulk with an
embedded generation equal to its current generation; extras are ignored. -/
def bulkValidF {V E : Type} (cfg : Cfg V E) (st : CState)
    (sortedRequested : List Bytes) (items : List BulkItem) : Bool :=
  sortedRequested.all fun k =>
    match itemGenF items k with
    | some g => decide (g = st.gens (singleKey cfg.ns k))
    | none => false

/-- The `byKey` map `GetBulk` builds: decode each item's payload, skipping
items whose payload fails the user codec; duplicate keys last-wins. -/
def byKeyF {V E : Type} (cfg : Cfg V E) (items : List BulkItem) :
    Bytes → Option V :=
  items.foldl
    (fun acc it =>
      match cfg.dec it.payload with
      | .ok v => fun k => if k = it.key then some v else acc k
      | .error _ => acc)
    (fun _ => none)

/-- The companion `genByKey` map (set exactly when `byKey` is). -/
def genByKeyF {V E : Type} (cfg : Cfg V E) (items : List BulkItem) :
    Bytes → Option Nat :=
  items.foldl
    (fun acc it =>
      match cfg.dec it.payload with
      | .ok _ => fun k => if k = it.key then some it.gen else acc k
      | .error _ => acc)
    (fun _ => none)

/-- One in-state single `Get` (fetch and snapshot read from the state). -/
def getStF {V E : Type} (cfg : Cfg V E) (st : CState) (key : Bytes) :
    (Option V × Option E) × List PCall × List HookEv :=
  getF cfg key (.ok (st.store (singleKey cfg.ns key)))
    (.ok (st.gens (singleKey cfg.ns key)))

/-- `cache.memoizedSingles`: at most one `Get` per unique key (in sorted
unique order), then the result map and the missing list in caller order
with duplicates preserved. -/
def memoizedSinglesF {V E : Type} (cfg : Cfg V E) (st : CState)
    (keys : List Bytes) :
    (Bytes → Option V) × List Bytes × List PCall × List HookEv :=
  let us := uniqSorted keys
  let lookup : Bytes → Option V := fun k =>
    if k ∈ us then (getStF (E := E) cfg st k).1.1 else none
  let calls := us.flatMap (fun k => (getStF (E := E) cfg st k).2.1)
  let hks := us.flatMap (fun k => (getStF (E := E) cfg st k).2.2)
  let out : Bytes → Option V := fun k => if k ∈ keys then lookup k else none
  let missing := keys.filter (fun k => (lookup k).isNone)
  (out, missing, calls, hks)

/-- One in-state single `SetWithGen` (snapshot from the state, provider
accepting the write). -/
def setStF {V E : Type} (cfg : Cfg V E) (st : CState) (key : Bytes) (v : V)
    (obs : Nat) (ttl : Int) : Option (CErr E) × List PCall × List HookEv :=
  setWithGenF cfg key v obs ttl (.ok (st.gens (singleKey cfg.ns key)))
    (.ok true)

/-- `cache.GetBulk` over the state.  Returns (value map, missing list,
provider calls, hook events). -/
def getBulkF {V E : Type} (cfg : Cfg V E) (st : CState) (keys : List Bytes) :
    (Bytes → Option V) × List Bytes × List PCall × List HookEv :=
  if !cfg.enabled then (fun _ => none, keys, [], [])
  else if keys = [] then (fun _ => none, [], [], [])
  else if !cfg.bulkEnabled then memoizedSinglesF cfg st keys
  else
    let us := uniqSorted keys
    let bk := bulkStorageKey cfg.ns us
    match st.store bk with
    | some raw =>
      match decodeBulk raw with
      | .ok items =>
        if bulkValidF cfg st us items then
          let byKey := byKeyF cfg items
          let genByKey := genByKeyF (E := E) cfg items
          let out : Bytes → Option V := fun k =>
            if k ∈ keys then byKey k else none
          let missing := keys.filter (fun k => (byKey k).isNone)
          let warmCalls := us.flatMap (fun k =>
            match byKey k with
            | some v =>
              (setStF (E := E) cfg st k v ((genByKey k).getD 0)
                cfg.defaultTTL).2.1
            | none => [])
          let warmHks := us.flatMap (fun k =>
            match byKey k with
            | some v =>
              (setStF (E := E) cfg st k v ((genByKey k).getD 0)
                cfg.defaultTTL).2.2
            | none => [])
          (out, missing, .pget bk :: warmCalls, warmHks)
        else
          let (out, missing, calls, hks) := memoizedSinglesF cfg st keys
          (out, missing, [.pget bk, .pdel bk] ++ calls,
            .bulkRejected cfg.ns us.length "invalid_or_stale" :: hks)
      | .error _ =>
        let (out, missing, calls, hks) := memoizedSinglesF cfg st keys
        (out, missing, [.pget bk, .pdel bk] ++ calls,
          .bulkRejected cfg.ns us.length "decode_error" :: hks)
    | none =>
      let (out, missing, calls, hks) := memoizedSinglesF cfg st keys
      (out, missing, .pget bk :: calls, hks)

/-- Seed every member as a single, skipping members without an observed
generation (the checked `if obs, ok := observedGens[k]` loops). -/
def seedCheckedF {V E : Type} (cfg : Cfg V E) (st : CState)
    (items : List (Bytes × V)) (obsG : Bytes → Option Nat) (ttl : Int) :
    List PCall × List HookEv :=
  (items.flatMap (fun kv =>
      match obsG kv.1 with
      | some obs => (setStF (E := E) cfg st kv.1 kv.2 obs ttl).2.1
      | none => []),
   items.flatMap (fun kv =>
      match obsG kv.1 with
      | some obs => (setStF (E := E) cfg st kv.1 kv.2 obs ttl).2.2
      | none => []))

/-- Seed every member as a single with `observedGens[k]` read unchecked
(zero value 0 when missing), as the post-verification seeding loops do. -/
def seedAllF {V E : Type} (cfg : Cfg V E) (st : CState)
    (items : List (Bytes × V)) (obsG : Bytes → Option Nat) (ttl : Int) :
    List PCall × List HookEv :=
  (items.flatMap (fun kv =>
      (setStF (E := E) cfg st kv.1 kv.2 ((obsG kv.1).getD 0) ttl).2.1),
   items.flatMap (fun kv =>
      (setStF (E := E) cfg st kv.1 kv.2 ((obsG kv.1).getD 0) ttl).2.2))

/-- The encode loop of `SetBulkWithGens`: codec-encode the members in the
given (sorted) order, propagating the first codec error; each wire item
carries `observedGens[k]` (zero value when missing). -/
def encodePairs {V E : Type} (cfg : Cfg V E) (obsG : Bytes → Option Nat) :
    List (Bytes × V) → Except E (List BulkItem)
  | [] => .ok []
  | kv :: rest =>
    match cfg.enc kv.2 with
    | .error e => .error e
    | .ok payload =>
      match encodePairs cfg obsG rest with
      | .error e => .error e
      | .ok tail => .ok (⟨kv.1, (obsG kv.1).getD 0, payload⟩ :: tail)

/-- `cache.SetBulkWithGens` over the state; `items` is the Go map as an
association list with distinct keys, `setRes` the provider's answer to the
bulk store. -/
def setBulkWithGensF {V E : Type} (cfg : Cfg V E) (st : CState)
    (items : List (Bytes × V)) (obsG : Bytes → Option Nat) (ttl : Int)
    (setRes : Except E Bool) :
    Option (CErr E) × List PCall × List HookEv :=
  if !cfg.enabled || items.isEmpty then (none, [], [])
  else if !cfg.bulkEnabled then
    let (calls, hks) := seedCheckedF cfg st items obsG ttl
    (none, calls, hks)
  else
    let ttl2 := effTTL ttl cfg.bulkTTL
    if !(items.all fun kv =>
        match obsG kv.1 with
        | some obs => decide (st.gens (singleKey cfg.ns kv.1) = obs)
        | none => false) then
      let (calls, hks) := seedCheckedF cfg st items obsG cfg.defaultTTL
      (none, calls,
        .bulkRejected cfg.ns items.length "gen_mismatch" :: hks)
    else
      let sorted := items.insertionSort (fun a b => a.1 ≤ b.1)
      match encodePairs cfg obsG sorted with
      | .error e => (some (.codec e), [], [])
      | .ok wireItems =>
        match encodeBulk wireItems with
        | none => (some .badKeyLen, [], [])
        | some wireb =>
          let bk := bulkStorageKey cfg.ns (sorted.map (fun kv => kv.1))
          let cost := cfg.setCost bk wireb true items.length
          match setRes with
          | .error e => (some (.transport e), [.pset bk wireb cost ttl2], [])
          | .ok stored =>
            let (seedCalls, seedHks) :=
              seedAllF cfg st items obsG cfg.defaultTTL
            if !stored then
              (none, .pset bk wireb cost ttl2 :: seedCalls,
                .providerSetRejected bk true :: seedHks)
            else
              (none, .pset bk wireb cost ttl2 :: seedCalls, seedHks)


/-! ## Trace model for the invalidate protocol (cache.go, single keys)

Engine micro-steps on the shared state, at storage-key granularity: a
generation bump (the gen store side of `Invalidate`), a provider delete
(the delete side of `Invalidate` or a self-heal), and the provider store
step of a `SetWithGen` that observed generation `obs` (the engine always
stores `EncodeSingle obs payload`).  Writers are over-approximated: a
`setE` step may appear with any observed generation, whether or not the
CAS check would have passed. -/

/-- A small concrete configuration: namespace "u", byte-codec for small
naturals, both features enabled. -/
def wcfg : Cfg Nat Nat where
  ns := [117]
  enabled := true
  bulkEnabled := true
  defaultTTL := 600
  bulkTTL := 700
  enc := fun n => .ok [n % 256]
  dec := fun b => match b with | [x] => .ok x | _ => .error 0
  setCost := fun _ _ _ _ => 1

/-- The same configuration with a user codec whose decode always fails. -/
def wcfgBadDec : Cfg Nat Nat :=
  { wcfg with dec := fun _ => .error 7 }

/-- The store after `n` consecutive `Bump`s of key `k` starting empty. -/
def lgsBumpN (k : String) : Nat → LocalGenStore
  | 0 => lgsEmpty
  | n + 1 => (lgsBump 0 (lgsBumpN k n) k).2


theorem readU16_u16be (n : Nat) :
    readU16 (n / 2^8 % 256) (n % 256) = n % 2^16 := by
  unfold readU16; omega

theorem readU32_u32be (n : Nat) :
    readU32 (n / 2^24 % 256) (n / 2^16 % 256) (n / 2^8 % 256) (n % 256)
      = n % 2^32 := by
  unfold readU32; omega

theorem readU64_u64be (n : Nat) :
    readU64 (n / 2^56 % 256) (n / 2^48 % 256) (n / 2^40 % 256)
      (n / 2^32 % 256) (n / 2^24 % 256) (n / 2^16 % 256) (n / 2^8 % 256)
      (n % 256) = n % 2^64 := by
  unfold readU64; omega

theorem u16be_readU16 (a b : Nat) (ha : a < 256) (hb : b < 256) :
    u16be (readU16 a b) = [a, b] := by
  unfold u16be readU16
  simp only [List.cons.injEq, and_true]
  refine ⟨?_, ?_⟩ <;> omega

theorem u32be_readU32 (a b c d : Nat)
    (ha : a < 256) (hb : b < 256) (hc : c < 256) (hd : d < 256) :
    u32be (readU32 a b c d) = [a, b, c, d] := by
  unfold u32be readU32
  simp only [List.cons.injEq, and_true]
  refine ⟨?_, ?_, ?_, ?_⟩ <;> omega

theorem u64be_readU64 (a b c d e f g h : Nat)
    (ha : a < 256) (hb : b < 256) (hc : c < 256) (hd : d < 256)
    (he : e < 256) (hf : f < 256) (hg : g < 256) (hh : h < 256) :
    u64be (readU64 a b c d e f g h) = [a, b, c, d, e, f, g, h] := by
  unfold u64be readU64
  simp only [List.cons.injEq, and_true]
  refine ⟨?_, ?_, ?_, ?_, ?_, ?_, ?_, ?_⟩ <;> omega

theorem decodeSingle_encodeSingle (gen : Nat) (p : Bytes)
    (hg : gen < 2^64) (hp : p.length < 2^32) :
    decodeSingle (encodeSingle gen p) = .ok (gen, p) := by
  have h32 := readU32_u32be p.length
  have h64 := readU64_u64be gen
  simp only [encodeSingle, u64be, u32be, List.cons_append, List.nil_append,
    decodeSingle, h32, h64, Nat.mod_eq_of_lt hg, Nat.mod_eq_of_lt hp]
  simp

/-- `decodeSingle` accepts only exact single encodings: a successful decode
of a well-formed byte buffer re-encodes to the very same buffer. -/
theorem decodeSingle_ok_encode (b : Bytes) (g : Nat) (p : Bytes)
    (hwf : WFBytes b) (h : decodeSingle b = .ok (g, p)) :
    encodeSingle g p = b := by
  unfold decodeSingle at h
  split at h
  case h_2 => simp at h
  case h_1 m0 m1 m2 m3 ver kd g0 g1 g2 g3 g4 g5 g6 g7 v0 v1 v2 v3 rest =>
    split at h
    case isFalse => simp at h
    case isTrue hhdr =>
      split at h
      case isFalse => simp at h
      case isTrue hlen =>
        obtain ⟨hm0, hm1, hm2, hm3, hver, hkd⟩ := hhdr
        have hb : ∀ x ∈ ([m0, m1, m2, m3, ver, kd, g0, g1, g2, g3, g4, g5,
            g6, g7, v0, v1, v2, v3] : Bytes), x < 256 := by
          intro x hx
          apply hwf
          simp only [List.mem_cons] at hx ⊢
          tauto
        simp only [Except.ok.injEq, Prod.mk.injEq] at h
        obtain ⟨hgv, hpv⟩ := h
        subst hgv hpv hm0 hm1 hm2 hm3 hver hkd
        have e64 : u64be (readU64 g0 g1 g2 g3 g4 g5 g6 g7)
            = [g0, g1, g2, g3, g4, g5, g6, g7] := by
          apply u64be_readU64 <;> · apply hb; simp
        have e32 : u32be (readU32 v0 v1 v2 v3) = [v0, v1, v2, v3] := by
          apply u32be_readU32 <;> · apply hb; simp
        simp [encodeSingle, hlen, e64, e32]

theorem decodeBulkItems_flatMap_extra (items : List BulkItem) (extra : Bytes)
    (h : ∀ it ∈ items, it.key.length ≠ 0 ∧ it.key.length ≤ 65535 ∧
      it.gen < 2^64 ∧ it.payload.length < 2^32) :
    decodeBulkItems items.length (items.flatMap encBulkItem ++ extra)
      = if extra = [] then .ok items else .error .corrupt := by
  induction items with
  | nil =>
    simp only [List.flatMap_nil, List.nil_append, List.length_nil]
    rfl
  | cons it rest ih =>
    obtain ⟨hk0, hk65, hg, hp⟩ := h it (by simp)
    have hrest := fun x hx => h x (List.mem_cons_of_mem _ hx)
    have h16 := readU16_u16be it.key.length
    have hkl : it.key.length % 2^16 = it.key.length := by omega
    simp only [List.flatMap_cons, encBulkItem, u16be, List.cons_append,
      List.append_assoc, List.length_cons, List.nil_append]
    rw [decodeBulkItems]
    simp only [h16, hkl]
    rw [if_neg (by simp only [List.length_append]; omega)]
    rw [List.drop_left]
    simp only [u64be, u32be, List.cons_append, List.nil_append]
    simp only [readU32_u32be, Nat.mod_eq_of_lt hp, readU64_u64be,
      Nat.mod_eq_of_lt hg]
    rw [if_neg (by simp only [List.length_append]; omega)]
    rw [List.drop_left, ih hrest]
    rw [List.take_left, List.take_left]
    by_cases hx : extra = [] <;> simp [hx]

theorem decodeBulkItems_flatMap (items : List BulkItem)
    (h : ∀ it ∈ items, it.key.length ≠ 0 ∧ it.key.length ≤ 65535 ∧
      it.gen < 2^64 ∧ it.payload.length < 2^32) :
    decodeBulkItems items.length (items.flatMap encBulkItem) = .ok items := by
  have hgen := decodeBulkItems_flatMap_extra items [] h
  simpa using hgen

theorem wf_drop {b : Bytes} (h : WFBytes b) (n : Nat) : WFBytes (b.drop n) :=
  fun x hx => h x (List.drop_subset n b hx)

theorem wf_take {b : Bytes} (h : WFBytes b) (n : Nat) : WFBytes (b.take n) :=
  fun x hx => h x (List.take_subset n b hx)

theorem decodeBulkItems_ok_encode (n : Nat) :
    ∀ (b : Bytes) (items : List BulkItem), WFBytes b →
    decodeBulkItems n b = .ok items →
    items.flatMap encBulkItem = b ∧ items.length = n ∧
      ∀ it ∈ items, it.key.length ≠ 0 ∧ it.key.length ≤ 65535 ∧
        it.payload.length < 2^32 := by
  induction n with
  | zero =>
    intro b items hwf h
    unfold decodeBulkItems at h
    split at h
    case isTrue hb => simp only [Except.ok.injEq] at h; subst h; simp [hb]
    case isFalse hb => simp at h
  | succ n ih =>
    intro b items hwf h
    unfold decodeBulkItems at h
    split at h
    case h_2 => simp at h
    case h_1 k0 k1 r1 =>
    dsimp only at h
    split at h
    case isTrue => simp at h
    case isFalse hcond =>
    split at h
    case h_2 => simp at h
    case h_1 g0 g1 g2 g3 g4 g5 g6 g7 v0 v1 v2 v3 r2 hdropeq =>
    split at h
    case isTrue => simp at h
    case isFalse hvcond =>
    split at h
    case h_2 => simp at h
    case h_1 items2 hrec =>
    simp only [Except.ok.injEq] at h
    subst h
    have hk0 : k0 < 256 := hwf k0 (by simp)
    have hk1 : k1 < 256 := hwf k1 (by simp)
    have hwr1 : WFBytes r1 := fun x hx => hwf x (by simp [hx])
    have hwdrop := wf_drop hwr1 (readU16 k0 k1)
    rw [hdropeq] at hwdrop
    have hgb : ∀ x ∈ ([g0, g1, g2, g3, g4, g5, g6, g7, v0, v1, v2,
        v3] : Bytes), x < 256 := by
      intro x hx
      apply hwdrop
      simp only [List.mem_cons] at hx ⊢
      tauto
    have hwr2 : WFBytes r2 := by
      intro x hx
      apply hwdrop
      simp [hx]
    obtain ⟨henc2, hlen2, hbounds2⟩ :=
      ih _ items2 (wf_drop hwr2 (readU32 v0 v1 v2 v3)) hrec
    push_neg at hcond
    obtain ⟨hklen0, hklenle⟩ := hcond
    have hkeylen : (r1.take (readU16 k0 k1)).length = readU16 k0 k1 := by
      simp [List.length_take]; omega
    have hpaylen : (r2.take (readU32 v0 v1 v2 v3)).length
        = readU32 v0 v1 v2 v3 := by
      simp [List.length_take]; omega
    have e16 : u16be (readU16 k0 k1) = [k0, k1] := u16be_readU16 k0 k1 hk0 hk1
    have e64 : u64be (readU64 g0 g1 g2 g3 g4 g5 g6 g7)
        = [g0, g1, g2, g3, g4, g5, g6, g7] := by
      apply u64be_readU64 <;> · apply hgb; simp
    have e32 : u32be (readU32 v0 v1 v2 v3) = [v0, v1, v2, v3] := by
      apply u32be_readU32 <;> · apply hgb; simp
    have hr2 := List.take_append_drop (readU32 v0 v1 v2 v3) r2
    have hr1 : r1.take (readU16 k0 k1) ++ (g0 :: g1 :: g2 :: g3 :: g4 :: g5
        :: g6 :: g7 :: v0 :: v1 :: v2 :: v3 ::
        (r2.take (readU32 v0 v1 v2 v3) ++ r2.drop (readU32 v0 v1 v2 v3)))
        = r1 := by
      rw [hr2, ← hdropeq, List.take_append_drop]
    refine ⟨?_, ?_, ?_⟩
    · simp only [List.flatMap_cons, encBulkItem, hkeylen, hpaylen, e16, e64,
        e32, henc2]
      conv_rhs => rw [← hr1]
      simp [List.append_assoc]
    · simp [hlen2]
    · intro it hit
      rcases List.mem_cons.mp hit with h | h
      · subst h
        refine ⟨?_, ?_, ?_⟩
        · simp only [hkeylen]; exact hklen0
        · simp only [hkeylen]; unfold readU16; omega
        · have hv0 : v0 < 256 := hgb v0 (by simp)
          have hv1 : v1 < 256 := hgb v1 (by simp)
          have hv2 : v2 < 256 := hgb v2 (by simp)
          have hv3 : v3 < 256 := hgb v3 (by simp)
          simp only [hpaylen]; unfold readU32; omega
      · exact hbounds2 it h

theorem decodeBulk_encodeBulk (items : List BulkItem) (w : Bytes)
    (henc : encodeBulk items = some w) (hn : items.length < 2^32)
    (hg : ∀ it ∈ items, it.gen < 2^64)
    (hp : ∀ it ∈ items, it.payload.length < 2^32) :
    decodeBulk w = .ok items := by
  unfold encodeBulk at henc
  split at henc
  case isFalse => simp at henc
  case isTrue hall =>
    simp only [Option.some.injEq] at henc
    subst henc
    have hbounds : ∀ it ∈ items, it.key.length ≠ 0 ∧
        it.key.length ≤ 65535 ∧ it.gen < 2^64 ∧
        it.payload.length < 2^32 := by
      intro it hit
      have hx := List.all_eq_true.mp hall it hit
      simp only [decide_eq_true_eq] at hx
      exact ⟨hx.1, hx.2, hg it hit, hp it hit⟩
    have h32 := readU32_u32be items.length
    simp only [decodeBulk, u32be, List.cons_append, List.nil_append, h32,
      Nat.mod_eq_of_lt hn]
    rw [if_pos (by simp)]
    exact decodeBulkItems_flatMap items hbounds

theorem decodeBulk_ok_encode (b : Bytes) (items : List BulkItem)
    (hwf : WFBytes b) (h : decodeBulk b = .ok items) :
    encodeBulk items = some b := by
  unfold decodeBulk at h
  split at h
  case h_2 => simp at h
  case h_1 m0 m1 m2 m3 ver kd n0 n1 n2 n3 rest =>
    split at h
    case isFalse => simp at h
    case isTrue hhdr =>
      obtain ⟨hm0, hm1, hm2, hm3, hver, hkd⟩ := hhdr
      subst hm0 hm1 hm2 hm3 hver hkd
      have hwrest : WFBytes rest := fun x hx => hwf x (by simp [hx])
      obtain ⟨henc, hlen, hbounds⟩ :=
        decodeBulkItems_ok_encode _ _ _ hwrest h
      have hnb : ∀ x ∈ ([n0, n1, n2, n3] : Bytes), x < 256 := by
        intro x hx
        apply hwf
        simp only [List.mem_cons] at hx ⊢
        tauto
      have e32 : u32be (readU32 n0 n1 n2 n3) = [n0, n1, n2, n3] := by
        apply u32be_readU32 <;> · apply hnb; simp
      unfold encodeBulk
      rw [if_pos]
      · rw [hlen, e32, henc]
        simp
      · refine List.all_eq_true.mpr fun it hit => ?_
        obtain ⟨h1, h2, _⟩ := hbounds it hit
        simp [h1, h2]

theorem decodeSingle_trailing (g : Nat) (p : Bytes) (x : Nat) :
    decodeSingle (encodeSingle g p ++ [x]) = .error .corrupt := by
  have h32 := readU32_u32be p.length
  simp only [encodeSingle, u64be, u32be, List.cons_append, List.nil_append,
    List.append_assoc, decodeSingle, h32]
  rw [if_pos (by simp)]
  rw [if_neg (by simp only [List.length_append, List.length_cons,
    List.length_nil]; omega)]

theorem decodeSingle_huge_payload :
    decodeSingle (encodeSingle 0 (List.replicate (2^32) 0))
      = .error .corrupt := by
  have h32 := readU32_u32be (List.replicate (2^32) (0 : Nat)).length
  simp only [encodeSingle, u64be, u32be, List.cons_append, List.nil_append,
    decodeSingle, List.length_replicate, h32]
  norm_num [readU32]

theorem decodeBulk_trailing (items : List BulkItem) (w : Bytes) (x : Nat)
    (henc : encodeBulk items = some w) (hn : items.length < 2^32)
    (hg : ∀ it ∈ items, it.gen < 2^64)
    (hp : ∀ it ∈ items, it.payload.length < 2^32) :
    decodeBulk (w ++ [x]) = .error .corrupt := by
  unfold encodeBulk at henc
  split at henc
  case isFalse => simp at henc
  case isTrue hall =>
    simp only [Option.some.injEq] at henc
    subst henc
    have hbounds : ∀ it ∈ items, it.key.length ≠ 0 ∧
        it.key.length ≤ 65535 ∧ it.gen < 2^64 ∧
        it.payload.length < 2^32 := by
      intro it hit
      have hx2 := List.all_eq_true.mp hall it hit
      simp only [decide_eq_true_eq] at hx2
      exact ⟨hx2.1, hx2.2, hg it hit, hp it hit⟩
    have h32 := readU32_u32be items.length
    simp only [List.cons_append, List.append_assoc, decodeBulk, u32be,
      List.nil_append, h32, Nat.mod_eq_of_lt hn]
    rw [if_pos (by simp)]
    rw [decodeBulkItems_flatMap_extra items [x] hbounds]
    simp

theorem uniqSorted_eq_of_toFinset_eq (ks1 ks2 : List Bytes)
    (h : ks1.toFinset = ks2.toFinset) : uniqSorted ks1 = uniqSorted ks2 := by
  have hperm : List.Perm ks1.dedup ks2.dedup :=
    List.toFinset_eq_iff_perm_dedup.mp h
  have hp : List.Perm (uniqSorted ks1) (uniqSorted ks2) := by
    unfold uniqSorted
    exact ((List.perm_insertionSort _ _).trans hperm).trans
      (List.perm_insertionSort _ _).symm
  exact List.eq_of_perm_of_sorted hp
    (List.sorted_insertionSort _ _) (List.sorted_insertionSort _ _)

theorem mem_uniqSorted (ks : List Bytes) (x : Bytes) :
    x ∈ uniqSorted ks ↔ x ∈ ks := by
  unfold uniqSorted
  rw [List.mem_insertionSort, List.mem_dedup]

theorem lpEncode_inj (xs : List Bytes) :
    ∀ ys : List Bytes, (∀ k ∈ xs, k.length < 2^32) →
    (∀ k ∈ ys, k.length < 2^32) → lpEncode xs = lpEncode ys → xs = ys := by
  induction xs with
  | nil =>
    intro ys _ _ h
    cases ys with
    | nil => rfl
    | cons y t => simp [lpEncode, u32be] at h
  | cons x xs ih =>
    intro ys hx hy h
    cases ys with
    | nil => simp [lpEncode, u32be] at h
    | cons y t =>
      have hxl : x.length < 2^32 := hx x (by simp)
      have hyl : y.length < 2^32 := hy y (by simp)
      simp only [lpEncode, List.flatMap_cons, u32be, List.cons_append,
        List.append_assoc, List.nil_append, List.cons.injEq] at h
      obtain ⟨h1, h2, h3, h4, h5⟩ := h
      have hlen : x.length = y.length := by omega
      obtain ⟨hxy, hrest⟩ := List.append_inj h5 hlen
      subst hxy
      have ht := ih t (fun k hk => hx k (by simp [hk]))
        (fun k hk => hy k (by simp [hk]))
        (by simpa [lpEncode, u32be, List.cons_append, List.nil_append]
          using hrest)
      simp [ht]

theorem yce_ne_nil : yce ≠ [] := by
  unfold yce
  intro h
  rw [List.replicate_eq_nil_iff] at h
  omega

theorem yce_length : yce.length = 2^32 - 4 := by
  unfold yce
  rw [List.length_replicate]

theorem k1ce_length : k1ce.length = 2^32 := by
  unfold k1ce
  rw [List.length_append, yce_length]
  norm_num [u32be]

theorem uniqSorted_k1ce : uniqSorted [k1ce] = [k1ce] := by
  unfold uniqSorted
  rw [List.dedup_cons_of_not_mem (List.not_mem_nil k1ce), List.dedup_nil]
  rfl

theorem uniqSorted_pair : uniqSorted [[], yce] = [[], yce] := by
  unfold uniqSorted
  rw [List.dedup_cons_of_not_mem
      (by rw [List.mem_singleton]; exact fun hh => yce_ne_nil hh.symm),
    List.dedup_cons_of_not_mem (List.not_mem_nil yce), List.dedup_nil]
  have hle : ([] : Bytes) ≤ yce := List.nil_le
  simp only [List.insertionSort, List.orderedInsert]
  rw [if_pos hle]

theorem lpEncode_collision :
    lpEncode (uniqSorted [k1ce]) = lpEncode (uniqSorted [[], yce]) := by
  rw [uniqSorted_k1ce, uniqSorted_pair]
  simp only [lpEncode, List.flatMap_cons, List.flatMap_nil, List.append_nil,
    List.length_nil, List.nil_append, k1ce_length, yce_length]
  have h1 : u32be (2^32) = [0, 0, 0, 0] := by norm_num [u32be]
  have h2 : u32be 0 = [0, 0, 0, 0] := by norm_num [u32be]
  rw [h1, h2]
  unfold k1ce
  rfl

theorem finset_ne_collision :
    ([k1ce] : List Bytes).toFinset ≠ ([[], yce] : List Bytes).toFinset := by
  intro h
  have hmem : k1ce ∈ ([[], yce] : List Bytes).toFinset := by
    rw [← h, List.mem_toFinset]
    exact List.mem_cons_self k1ce []
  rw [List.mem_toFinset] at hmem
  rcases List.mem_cons.mp hmem with h1 | h1
  · have hc := congrArg List.length h1
    rw [k1ce_length, List.length_nil] at hc
    omega
  · rw [List.mem_singleton] at h1
    have hc := congrArg List.length h1
    rw [k1ce_length, yce_length] at hc
    omega

theorem lgsBump_spec (now : Int) (s : LocalGenStore) (k : String) :
    lgsSnapshot (lgsBump now s k).2 k = (lgsSnapshot s k + 1) % 2^64 ∧
    (lgsBump now s k).1 = (lgsSnapshot s k + 1) % 2^64 := by
  unfold lgsBump lgsSnapshot
  cases hgk : s.gens k <;> simp [hgk]

theorem lgsBumpN_snapshot (k : String) (n : Nat) :
    lgsSnapshot (lgsBumpN k n) k = n % 2^64 := by
  induction n with
  | zero => rfl
  | succ n ih =>
    rw [lgsBumpN, (lgsBump_spec 0 (lgsBumpN k n) k).1, ih]
    omega

theorem lgsBumpN_ret (k : String) (n : Nat) :
    (lgsBump 0 (lgsBumpN k n) k).1 = (n + 1) % 2^64 := by
  rw [(lgsBump_spec 0 (lgsBumpN k n) k).2, lgsBumpN_snapshot]
  omega

/-- Success inversion for `Get`: a returned value implies an enabled cache,
a successful fetch of bytes that single-decode to the snapshot's
generation, and a successful user decode. -/
theorem getF_some {V E : Type} (cfg : Cfg V E) (key : Bytes)
    (fetch : Except E (Option Bytes)) (snap : Except E Nat) (v : V)
    (h : (getF cfg key fetch snap).1.1 = some v) :
    cfg.enabled = true ∧ ∃ raw dgen payload,
      fetch = .ok (some raw) ∧ decodeSingle raw = .ok (dgen, payload) ∧
      dgen = snapVal snap ∧ cfg.dec payload = .ok v := by
  unfold getF at h
  split at h
  case isTrue => simp at h
  case isFalse henb =>
    refine ⟨by simpa using henb, ?_⟩
    split at h
    case h_1 e => simp at h
    case h_2 => simp at h
    case h_3 raw =>
      split at h
      case h_1 => simp at h
      case h_2 dgen payload hdec =>
        split at h
        case isTrue => simp at h
        case isFalse hgen =>
          split at h
          case h_1 => simp at h
          case h_2 v2 hv =>
            simp only [Prod.mk.injEq, Option.some.injEq] at h
            exact ⟨raw, dgen, payload, rfl, hdec, by omega, by rw [hv, h]⟩

/-- Claim C3: whenever `Get` returns a value, the generation embedded in
the decoded single wire entry equals the generation the snapshot taken
during that same `Get` returned; and `Get` never propagates a
wire-corruption or value-decode error — its only non-nil error is the
transport error of the initial provider fetch. -/
theorem get_c3 {V E : Type} (cfg : Cfg V E) (key : Bytes)
    (fetch : Except E (Option Bytes)) (snap : Except E Nat) :
    (∀ v g, (getF cfg key fetch snap).1.1 = some v → snap = .ok g →
      ∃ raw payload, fetch = .ok (some raw) ∧
        decodeSingle raw = .ok (g, payload)) ∧
    (∀ e, (getF cfg key fetch snap).1.2 = some e → fetch = .error e) := by
  constructor
  · intro v g hv hsnap
    obtain ⟨-, raw, dgen, payload, hfetch, hdec, hdgen, -⟩ :=
      getF_some cfg key fetch snap v hv
    subst hsnap
    refine ⟨raw, payload, hfetch, ?_⟩
    simp only [snapVal] at hdgen
    rw [← hdgen]
    exact hdec
  · intro e he
    unfold getF at he
    split at he
    case isTrue => simp at he
    case isFalse =>
      split at he
      case h_1 e2 =>
        simp only [Prod.mk.injEq, Option.some.injEq] at he
        rw [he]
      case h_2 => simp at he
      case h_3 raw =>
        split at he
        case h_1 => simp at he
        case h_2 =>
          split at he
          case isTrue => simp at he
          case isFalse =>
            split at he
            case h_1 => simp at he
            case h_2 => simp at he

theorem get_c3_witness :
    (getF wcfg [107] (.ok (some (encodeSingle 2 [9]))) (.ok 2)).1.1
      = some 9 ∧
    ∃ raw payload,
      (Except.ok (some (encodeSingle 2 [9])) : Except Nat (Option Bytes))
        = .ok (some raw) ∧ decodeSingle raw = .ok (2, payload) :=
  ⟨by decide,
   (get_c3 wcfg [107] (.ok (some (encodeSingle 2 [9]))) (.ok 2)).1 9 2
     (by decide) rfl⟩

/-- Claim C5: `Invalidate` returns a non-nil error exactly when both the
generation bump and the provider delete fail; a single failure returns nil;
and the returned aggregate `InvalidateError` carries both underlying
causes as extractable fields. -/
theorem invalidate_c5 {V E : Type} (cfg : Cfg V E) (key : Bytes)
    (bumpRes : Except E Nat) (delRes : Option E)
    (henb : cfg.enabled = true) :
    ((invalidateF cfg key bumpRes delRes).1 ≠ none ↔
      (∃ be, bumpRes = .error be) ∧ ∃ de, delRes = some de) ∧
    ∀ be de, bumpRes = .error be → delRes = some de →
      (invalidateF cfg key bumpRes delRes).1 = some ⟨key, be, de⟩ := by
  unfold invalidateF
  rw [henb]
  cases bumpRes <;> cases delRes <;> simp

theorem invalidate_c5_witness :
    wcfg.enabled = true ∧
    (invalidateF wcfg [107] (Except.error 3 : Except Nat Nat)
        (some 4)).1 = some ⟨[107], 3, 4⟩ ∧
    (invalidateF wcfg [107] (Except.error 3 : Except Nat Nat)
        (some 4)).1.map (fun e => (e.bumpErr, e.delErr)) = some (3, 4) :=
  ⟨rfl,
   (invalidate_c5 wcfg [107] (Except.error 3) (some 4) rfl).2 3 4 rfl rfl,
   by decide⟩


/-- Call-trace shape of `SetWithGen`: it issues either no provider call or
exactly one `Set` of the wire-encoded entry, whose TTL is the caller's
unless that was 0, in which case it is the configured single default. -/
theorem setWithGenF_calls {V E : Type} (cfg : Cfg V E) (key : Bytes)
    (v : V) (obs : Nat) (ttl : Int) (snap : Except E Nat)
    (setRes : Except E Bool) :
    (setWithGenF cfg key v obs ttl snap setRes).2.1 = [] ∨
    ∃ payload, cfg.enc v = .ok payload ∧
      (setWithGenF cfg key v obs ttl snap setRes).2.1 =
        [PCall.pset (singleKey cfg.ns key) (encodeSingle obs payload)
          (cfg.setCost (singleKey cfg.ns key) (encodeSingle obs payload)
            false 1)
          (effTTL ttl cfg.defaultTTL)] := by
  unfold setWithGenF
  split
  case isTrue => exact Or.inl rfl
  case isFalse =>
    split
    case isTrue => exact Or.inl rfl
    case isFalse =>
      cases henc : cfg.enc v with
      | error e => exact Or.inl rfl
      | ok payload =>
        cases setRes with
        | error e => exact Or.inr ⟨payload, rfl, rfl⟩
        | ok stored => exact Or.inr ⟨payload, rfl, rfl⟩

/-- Claim C2 (amended): when the generation snapshot succeeds, `SetWithGen`
issues a provider `Set` only if the snapshotted current generation equals
the observed generation; on a mismatch it returns nil and issues no
provider call at all (the value store is unmodified).  (When the snapshot
fails, the code treats the current generation as 0, so a write observing
generation 0 can still be stored; see the counterexample.) -/
theorem setWithGen_c2 {V E : Type} (cfg : Cfg V E) (key : Bytes) (v : V)
    (obs : Nat) (ttl : Int) (g : Nat) (setRes : Except E Bool) :
    (g ≠ obs →
      (setWithGenF cfg key v obs ttl (.ok g) setRes).1 = none ∧
      (setWithGenF cfg key v obs ttl (.ok g) setRes).2.1 = []) ∧
    (∀ k2 w c t2,
      PCall.pset k2 w c t2 ∈
        (setWithGenF cfg key v obs ttl (.ok g) setRes).2.1 → g = obs) := by
  unfold setWithGenF
  split
  case isTrue => simp
  case isFalse =>
    constructor
    · intro hne
      rw [if_pos (by simpa [snapVal] using hne)]
      exact ⟨rfl, rfl⟩
    · intro k2 w c t2 hmem
      by_cases hg : g = obs
      · exact hg
      · rw [if_pos (by simpa [snapVal] using hg)] at hmem
        simp at hmem

theorem setWithGen_c2_witness :
    (2 : Nat) ≠ 0 ∧
    (setWithGenF wcfg [107] (9 : Nat) 0 0 (.ok 2) (.ok true)).1 = none ∧
    (setWithGenF wcfg [107] (9 : Nat) 0 0 (.ok 2) (.ok true)).2.1 = [] :=
  ⟨by decide,
   ((setWithGen_c2 wcfg [107] 9 0 0 2 (.ok true)).1 (by decide)).1,
   ((setWithGen_c2 wcfg [107] 9 0 0 2 (.ok true)).1 (by decide)).2⟩

/-- Claim C2 counterexample: with the per-key current generation at 5 but
the snapshot call failing, a `SetWithGen` observing generation 0 issues a
provider `Set` (the value store is modified) and returns nil, although the
current generation (5) differs from the observed generation (0). -/
theorem setWithGen_c2_counterexample :
    (CState.mk (fun _ => 5) (fun _ => none)).gens
        (singleKey wcfg.ns [107]) ≠ 0 ∧
    (setWithGenF wcfg [107] (9 : Nat) 0 0 (.error 3) (.ok true)).2.1 ≠ [] ∧
    (setWithGenF wcfg [107] (9 : Nat) 0 0 (.error 3) (.ok true)).1
      = none := by
  refine ⟨by decide, by decide, by decide⟩

/-- Claim C10: in `SetWithGen` (and for the bulk TTL of
`SetBulkWithGens`), the caller-supplied TTL is replaced by the configured
default exactly when it is 0: every `Set` call issued by `SetWithGen`
carries `defaultTTL` when `ttl = 0` and the caller's `ttl` otherwise (in
particular a negative TTL is passed through unchanged), and the bulk
`Set` of `SetBulkWithGens` carries `bulkTTL` when `ttl = 0` and the
caller's `ttl` otherwise. -/
theorem ttl_c10 {V E : Type} (cfg : Cfg V E) :
    (∀ (key : Bytes) (v : V) (obs : Nat) (ttl : Int)
        (snap : Except E Nat) (setRes : Except E Bool) (k2 w : Bytes)
        (c t2 : Int),
      PCall.pset k2 w c t2 ∈
          (setWithGenF cfg key v obs ttl snap setRes).2.1 →
        t2 = if ttl = 0 then cfg.defaultTTL else ttl) ∧
    (∀ (st : CState) (items : List (Bytes × V))
        (obsG : Bytes → Option Nat) (ttl : Int) (setRes : Except E Bool)
        (wireItems : List BulkItem) (wireb : Bytes),
      cfg.enabled = true → cfg.bulkEnabled = true → items.isEmpty = false →
      (items.all fun kv =>
        match obsG kv.1 with
        | some obs => decide (st.gens (singleKey cfg.ns kv.1) = obs)
        | none => false) = true →
      encodePairs cfg obsG (items.insertionSort (fun a b => a.1 ≤ b.1))
        = .ok wireItems →
      encodeBulk wireItems = some wireb →
      ∃ rest,
        (setBulkWithGensF cfg st items obsG ttl setRes).2.1 =
          PCall.pset
            (bulkStorageKey cfg.ns
              ((items.insertionSort (fun a b => a.1 ≤ b.1)).map
                (fun kv => kv.1)))
            wireb
            (cfg.setCost
              (bulkStorageKey cfg.ns
                ((items.insertionSort (fun a b => a.1 ≤ b.1)).map
                  (fun kv => kv.1)))
              wireb true items.length)
            (effTTL ttl cfg.bulkTTL) :: rest ∧
        effTTL ttl cfg.bulkTTL = if ttl = 0 then cfg.bulkTTL else ttl) := by
  constructor
  · intro key v obs ttl snap setRes k2 w c t2 hmem
    rcases setWithGenF_calls cfg key v obs ttl snap setRes with hc
      | ⟨payload, -, hc⟩
    · rw [hc] at hmem; simp at hmem
    · rw [hc] at hmem
      simp only [List.mem_singleton, PCall.pset.injEq] at hmem
      rw [hmem.2.2.2]
      rfl
  · intro st items obsG ttl setRes wireItems wireb henb hbulk hne hall
      hpairs hencb
    unfold setBulkWithGensF
    rw [henb, hbulk, hne]
    simp only [Bool.not_true, Bool.false_or, Bool.false_eq_true, if_false,
      hall, Bool.not_false, if_true]
    simp only [hpairs, hencb]
    cases setRes with
    | error e => exact ⟨[], rfl, rfl⟩
    | ok stored =>
      cases stored with
      | true => exact ⟨_, rfl, rfl⟩
      | false => exact ⟨_, rfl, rfl⟩

theorem ttl_c10_witness :
    PCall.pset (singleKey wcfg.ns [107]) (encodeSingle 2 [9]) 1 (-5) ∈
      (setWithGenF wcfg [107] (9 : Nat) 2 (-5) (.ok 2) (.ok true)).2.1 ∧
    ((-5 : Int) = if (-5 : Int) = 0 then wcfg.defaultTTL else (-5 : Int)) :=
  ⟨by decide,
   (ttl_c10 wcfg).1 [107] 9 2 (-5) (.ok 2) (.ok true)
     (singleKey wcfg.ns [107]) (encodeSingle 2 [9]) 1 (-5) (by decide)⟩

/-- Claim C6 (amended): the bulk storage key of a request equals
"bulk:" + ns + ":" + the first 16 hex chars of SHA-256 over the
length-prefixed concatenation of the sorted unique request keys; it is
unchanged under permutation and duplication of the request list; and for
keys shorter than `2^32` bytes the pre-hash byte string is injective over
key sets.  (For a key of length at least `2^32` the 32-bit length prefix
truncates and injectivity fails; see the counterexample.) -/
theorem bulk_key_c6 (ns : Bytes) (ks1 ks2 : List Bytes) :
    (bulkKeyOfRequest ns ks1 =
      (98 :: 117 :: 108 :: 107 :: 58 :: ns) ++ 58 ::
        hex16 (sha256 (lpEncode (uniqSorted ks1)))) ∧
    (ks1.toFinset = ks2.toFinset →
      bulkKeyOfRequest ns ks1 = bulkKeyOfRequest ns ks2) ∧
    ((∀ k ∈ ks1, k.length < 2^32) → (∀ k ∈ ks2, k.length < 2^32) →
      lpEncode (uniqSorted ks1) = lpEncode (uniqSorted ks2) →
      ks1.toFinset = ks2.toFinset) := by
  refine ⟨rfl, ?_, ?_⟩
  · intro h
    unfold bulkKeyOfRequest
    rw [uniqSorted_eq_of_toFinset_eq ks1 ks2 h]
  · intro h1 h2 heq
    have hinj := lpEncode_inj (uniqSorted ks1) (uniqSorted ks2)
      (fun k hk => h1 k ((mem_uniqSorted ks1 k).mp hk))
      (fun k hk => h2 k ((mem_uniqSorted ks2 k).mp hk)) heq
    ext x
    simp only [List.mem_toFinset]
    rw [← mem_uniqSorted ks1 x, ← mem_uniqSorted ks2 x, hinj]

theorem bulk_key_c6_witness :
    (([[97], [98]] : List Bytes).toFinset
      = ([[98], [97], [97]] : List Bytes).toFinset) ∧
    bulkKeyOfRequest [117] [[97], [98]]
      = bulkKeyOfRequest [117] [[98], [97], [97]] :=
  ⟨by decide,
   (bulk_key_c6 [117] [[97], [98]] [[98], [97], [97]]).2.1 (by decide)⟩

/-- Claim C6 counterexample: two different key sets with the same pre-hash
byte string.  The single key `k1ce` is `2^32` bytes long, so its 32-bit
length prefix truncates to 0, and the length-prefixed concatenation of
the set containing only `k1ce` coincides byte-for-byte with that of the
two-element set containing the empty key and `yce`. -/
theorem bulk_key_c6_counterexample :
    lpEncode (uniqSorted [k1ce]) = lpEncode (uniqSorted [[], yce]) ∧
    ([k1ce] : List Bytes).toFinset ≠ ([[], yce] : List Bytes).toFinset :=
  ⟨lpEncode_collision, finset_ne_collision⟩

/-- Claim C7 (amended): `DecodeSingle (EncodeSingle gen payload)` returns
exactly `(gen, payload)` for every `gen < 2^64` (the uint64 domain) and
every payload shorter than `2^32` bytes; and `DecodeBulk (EncodeBulk
items)` returns exactly the items, in order, whenever `EncodeBulk`
succeeds (all key lengths in [1, 65535]), there are fewer than `2^32`
items, and every generation is in the uint64 range and every payload is
shorter than `2^32` bytes.  (For a payload of length `2^32` the length
field truncates and the round trip fails; see the counterexample.) -/
theorem wire_roundtrip_c7 :
    (∀ (gen : Nat) (p : Bytes), gen < 2^64 → p.length < 2^32 →
      decodeSingle (encodeSingle gen p) = .ok (gen, p)) ∧
    (∀ (items : List BulkItem) (w : Bytes), encodeBulk items = some w →
      items.length < 2^32 → (∀ it ∈ items, it.gen < 2^64) →
      (∀ it ∈ items, it.payload.length < 2^32) →
      decodeBulk w = .ok items) :=
  ⟨decodeSingle_encodeSingle, decodeBulk_encodeBulk⟩

theorem wire_roundtrip_c7_witness :
    (3 : Nat) < 2^64 ∧ ([7, 8] : Bytes).length < 2^32 ∧
    decodeSingle (encodeSingle 3 [7, 8]) = .ok (3, [7, 8]) :=
  ⟨by decide, by decide, wire_roundtrip_c7.1 3 [7, 8] (by decide) (by decide)⟩

/-- Claim C7 counterexample: a payload of exactly `2^32` bytes.  The
uint32 length field of `EncodeSingle` truncates to 0, so `DecodeSingle`
sees trailing bytes and rejects the frame as corrupt instead of returning
the pair. -/
theorem wire_roundtrip_c7_counterexample :
    decodeSingle (encodeSingle 0 (List.replicate (2^32) 0))
      = .error .corrupt ∧
    (Except.error WErr.corrupt : Except WErr (Nat × Bytes)) ≠
      .ok (0, List.replicate (2^32) 0) :=
  ⟨decodeSingle_huge_payload, fun h => Except.noConfusion h⟩

/-- Claim C8: the wire decoders are strict.  Any well-formed byte buffer
that `DecodeSingle` (resp. `DecodeBulk`) accepts is exactly the encoding
of what it returns — so buffers with a malformed header, a declared length
overrunning the buffer, or trailing bytes are all rejected with the
single corrupt error and no partial result; in particular a single frame
followed by one extra byte, and a bulk frame followed by one extra byte,
are rejected. -/
theorem strict_framing_c8 :
    (∀ (b : Bytes) (g : Nat) (p : Bytes), WFBytes b →
      decodeSingle b = .ok (g, p) → encodeSingle g p = b) ∧
    (∀ (b : Bytes) (items : List BulkItem), WFBytes b →
      decodeBulk b = .ok items → encodeBulk items = some b) ∧
    (∀ (g : Nat) (p : Bytes) (x : Nat),
      decodeSingle (encodeSingle g p ++ [x]) = .error .corrupt) ∧
    (∀ (items : List BulkItem) (w : Bytes) (x : Nat),
      encodeBulk items = some w → items.length < 2^32 →
      (∀ it ∈ items, it.gen < 2^64) →
      (∀ it ∈ items, it.payload.length < 2^32) →
      decodeBulk (w ++ [x]) = .error .corrupt) :=
  ⟨decodeSingle_ok_encode, decodeBulk_ok_encode, decodeSingle_trailing,
   decodeBulk_trailing⟩

theorem strict_framing_c8_witness :
    WFBytes [67, 65, 83, 67, 1, 1, 0, 0, 0, 0, 0, 0, 0, 2, 0, 0, 0, 1, 9] ∧
    decodeSingle [67, 65, 83, 67, 1, 1, 0, 0, 0, 0, 0, 0, 0, 2, 0, 0, 0, 1, 9]
      = .ok (2, [9]) ∧
    encodeSingle 2 [9]
      = [67, 65, 83, 67, 1, 1, 0, 0, 0, 0, 0, 0, 0, 2, 0, 0, 0, 1, 9] :=
  ⟨by decide, by decide,
   strict_framing_c8.1
     [67, 65, 83, 67, 1, 1, 0, 0, 0, 0, 0, 0, 0, 2, 0, 0, 0, 1, 9] 2 [9]
     (by decide) (by decide)⟩

/-- Claim C9 (amended): for the local generation store, a never-bumped key
snapshots as 0 and `Bump` returns the previous per-key value plus one
modulo `2^64` (the counter is a Go uint64).  As long as fewer than `2^64`
bumps have occurred on the key, each `Bump` strictly increases the value
by exactly one and returns a value strictly greater than every value
previously observed via `Snapshot` or `Bump`.  (At the `2^64`-th bump the
counter wraps to 0; see the counterexample.) -/
theorem gen_monotonic_c9 (k : String) (n m : Nat) :
    lgsSnapshot lgsEmpty k = 0 ∧
    lgsSnapshot (lgsBumpN k n) k = n % 2^64 ∧
    (lgsBump 0 (lgsBumpN k n) k).1 = (n + 1) % 2^64 ∧
    (n + 1 < 2^64 →
      (lgsBump 0 (lgsBumpN k n) k).1
        = lgsSnapshot (lgsBumpN k n) k + 1 ∧
      (m ≤ n →
        lgsSnapshot (lgsBumpN k m) k < (lgsBump 0 (lgsBumpN k n) k).1)) := by
  refine ⟨rfl, lgsBumpN_snapshot k n, lgsBumpN_ret k n, ?_⟩
  intro hlt
  constructor
  · rw [lgsBumpN_ret, lgsBumpN_snapshot]
    omega
  · intro hmn
    rw [lgsBumpN_ret, lgsBumpN_snapshot]
    omega

theorem gen_monotonic_c9_witness :
    1 + 1 < 2^64 ∧ (0 : Nat) ≤ 1 ∧
    (lgsBump 0 (lgsBumpN "k" 1) "k").1
      = lgsSnapshot (lgsBumpN "k" 1) "k" + 1 ∧
    lgsSnapshot (lgsBumpN "k" 0) "k" < (lgsBump 0 (lgsBumpN "k" 1) "k").1 :=
  ⟨by decide, by decide,
   ((gen_monotonic_c9 "k" 1 0).2.2.2 (by decide)).1,
   ((gen_monotonic_c9 "k" 1 0).2.2.2 (by decide)).2 (by decide)⟩

/-- Claim C9 counterexample: the uint64 counter wraps.  The `2^64`-th bump
of a key returns 0, which is less than or equal to the value 1 previously
observed by `Snapshot` after the first bump, and is not the previous value
plus one. -/
theorem gen_monotonic_c9_counterexample :
    (lgsBump 0 (lgsBumpN "k" (2^64 - 1)) "k").1 = 0 ∧
    lgsSnapshot (lgsBumpN "k" 1) "k" = 1 ∧
    (lgsBump 0 (lgsBumpN "k" (2^64 - 1)) "k").1 ≤
      lgsSnapshot (lgsBumpN "k" 1) "k" := by
  have h1 := lgsBumpN_ret "k" (2^64 - 1)
  have h2 := lgsBumpN_snapshot "k" 1
  refine ⟨?_, ?_, ?_⟩
  · rw [h1]; omega
  · rw [h2]; omega
  · rw [h1, h2]; omega

/-- Claim C4 (amended): self-heal on read.  For `Get`: if the fetched
entry is corrupt, carries a generation different from the snapshot, or has
a payload the user codec rejects, the single entry is deleted before the
read returns.  For `GetBulk`: if the fetched bulk entry is corrupt or
fails member validation (missing or stale member), the bulk entry is
deleted before the read returns.  A member payload that fails the user
codec inside an otherwise valid bulk entry does not delete the bulk
entry — that member is merely reported missing (see the counterexample).
-/
theorem self_heal_c4 {V E : Type} (cfg : Cfg V E) :
    (∀ (key : Bytes) (raw : Bytes) (snap : Except E Nat),
      cfg.enabled = true →
      (decodeSingle raw = .error .corrupt ∨
        ∃ dgen payload, decodeSingle raw = .ok (dgen, payload) ∧
          (dgen ≠ snapVal snap ∨ ∃ e, cfg.dec payload = .error e)) →
      PCall.pdel (singleKey cfg.ns key) ∈
        (getF cfg key (.ok (some raw)) snap).2.1) ∧
    (∀ (st : CState) (keys : List Bytes) (raw : Bytes),
      cfg.enabled = true → cfg.bulkEnabled = true → keys ≠ [] →
      st.store (bulkStorageKey cfg.ns (uniqSorted keys)) = some raw →
      (decodeBulk raw = .error .corrupt ∨
        ∃ items, decodeBulk raw = .ok items ∧
          bulkValidF cfg st (uniqSorted keys) items = false) →
      PCall.pdel (bulkStorageKey cfg.ns (uniqSorted keys)) ∈
        (getBulkF cfg st keys).2.2.1) := by
  constructor
  · intro key raw snap henb hbad
    unfold getF
    simp only [henb, Bool.not_true, Bool.false_eq_true, if_false]
    rcases hbad with hc | ⟨dgen, payload, hdec, hbad2⟩
    · rw [hc]
      simp
    · rw [hdec]
      dsimp only
      rcases hbad2 with hmis | ⟨e, hde⟩
      · rw [if_pos hmis]
        simp
      · by_cases hg : dgen ≠ snapVal snap
        · rw [if_pos hg]; simp
        · rw [if_neg hg, hde]; simp
  · intro st keys raw henb hbulk hne hstore hbad
    unfold getBulkF
    simp only [henb, hbulk, Bool.not_true, Bool.false_eq_true, if_false,
      if_neg hne, hstore]
    rcases hbad with hc | ⟨items, hdec, hinv⟩
    · rw [hc]
      simp
    · rw [hdec]
      dsimp only
      rw [hinv]
      simp

theorem self_heal_c4_witness :
    wcfg.enabled = true ∧
    decodeSingle [0] = .error .corrupt ∧
    PCall.pdel (singleKey wcfg.ns [107]) ∈
      (getF wcfg [107] (.ok (some [0])) (.ok 0)).2.1 :=
  ⟨rfl, by decide,
   (self_heal_c4 wcfg).1 [107] [0] (.ok 0) rfl (Or.inl (by decide))⟩

/-- Claim C4 counterexample: a valid bulk entry whose only member's
payload fails the user codec.  `GetBulk` observes the value-decode error,
reports the member missing, and returns without deleting the bulk entry:
no provider delete of the bulk key is issued. -/
theorem self_heal_c4_counterexample :
    decodeBulk ((encodeBulk [⟨[107], 0, [9]⟩]).getD [])
      = .ok [⟨[107], 0, [9]⟩] ∧
    bulkValidF wcfgBadDec
      (CState.mk (fun _ => 0)
        (fun k =>
          if k = bulkStorageKey wcfgBadDec.ns (uniqSorted [[107]]) then
            some ((encodeBulk [⟨[107], 0, [9]⟩]).getD [])
          else none))
      (uniqSorted [[107]]) [⟨[107], 0, [9]⟩] = true ∧
    wcfgBadDec.dec [9] = .error 7 ∧
    (getBulkF wcfgBadDec
      (CState.mk (fun _ => 0)
        (fun k =>
          if k = bulkStorageKey wcfgBadDec.ns (uniqSorted [[107]]) then
            some ((encodeBulk [⟨[107], 0, [9]⟩]).getD [])
          else none))
      [[107]]).2.1 = [[107]] ∧
    PCall.pdel (bulkStorageKey wcfgBadDec.ns (uniqSorted [[107]])) ∉
      (getBulkF wcfgBadDec
        (CState.mk (fun _ => 0)
          (fun k =>
            if k = bulkStorageKey wcfgBadDec.ns (uniqSorted [[107]]) then
              some ((encodeBulk [⟨[107], 0, [9]⟩]).getD [])
            else none))
        [[107]]).2.2.1 := by
  refine ⟨by decide, by decide, by decide, by decide, by decide⟩

end Cascache
